import Mathlib

/-!
# Serial regression runner (`cmd/serial/main.go`)

A shallow embedding of the program: the CSV loader `readData`, the producer
`performIteration`, and the runner `performRegression` with its buffered
result channel.

Conventions of the embedding.

* `float64` is a type parameter `F`; the two `gonum/stat` calls and
  `strconv.ParseFloat` are taken as parameters over it, since their code is
  outside the repository.
* A Go string is a `List Char` (the text is taken to be valid UTF-8).
* A function that can stop the program returns that stop as a value
  (`Fault` for the runner, `Outcome` for the loader).
-/

namespace Serial

/-! ## Results (`main.go` lines 34-45) -/

/-- The struct `Result`. -/
structure Result (F : Type) where
  XName : String
  A : F
  B : F
  RSquared : F
  deriving DecidableEq, Repr

/-- The struct `IterationResult`. -/
structure IterationResult (F : Type) where
  Iteration : Int
  CrimResult : Result F
  RoomsResult : Result F
  deriving DecidableEq, Repr

/-- The two `gonum/stat` functions as `performIteration` calls them: with
`weights = nil` and `origin = false`.  `LinearRegression x y` is the pair
`(alpha, beta)`; `RSquared x y alpha beta` is the coefficient of
determination of that line. -/
structure Stat (F : Type) where
  LinearRegression : List F → List F → F × F
  RSquared : List F → List F → F → F → F

/-! ## The buffered channel -/

/-- The ways the runner can stop instead of finishing. -/
inductive Fault where
  /-- `make(chan T, n)` with `n < 0` panics -/
  | makeNegative
  /-- a send on a closed channel panics -/
  | sendOnClosed
  /-- `close` of a closed channel panics -/
  | closeOfClosed
  /-- a send on a full buffer with no receiver: the only goroutine blocks for ever -/
  | deadlock
  deriving DecidableEq, Repr

/-- A buffered channel seen from the single goroutine that uses it: its
capacity, the values sent and not yet received (oldest first), and whether it
has been closed. -/
structure Chan (α : Type) where
  cap : Nat
  buf : List α
  closed : Bool
  deriving DecidableEq, Repr

/-- The call `make(chan T, n)`. -/
def Chan.make {α : Type} (n : Int) : Except Fault (Chan α) :=
  if n < 0 then .error .makeNegative
  else .ok { cap := n.toNat, buf := [], closed := false }

/-- The statement `ch <- v`. -/
def Chan.send {α : Type} (ch : Chan α) (v : α) : Except Fault (Chan α) :=
  if ch.closed then .error .sendOnClosed
  else if ch.buf.length < ch.cap then .ok { ch with buf := ch.buf ++ [v] }
  else .error .deadlock

/-- The call `close(ch)`. -/
def Chan.close {α : Type} (ch : Chan α) : Except Fault (Chan α) :=
  if ch.closed then .error .closeOfClosed
  else .ok { ch with closed := true }

/-! ## The producer and the runner (`main.go` lines 133-171) -/

/-- The function `performIteration`: two fits against `mv`, one result sent. -/
def performIteration {F : Type} (S : Stat F) (iteration : Int)
    (crim rooms mv : List F) (resultCh : Chan (IterationResult F)) :
    Except Fault (Chan (IterationResult F)) :=
  let ab1 := S.LinearRegression crim mv
  let rsq1 := S.RSquared crim mv ab1.1 ab1.2
  let ab2 := S.LinearRegression rooms mv
  let rsq2 := S.RSquared rooms mv ab2.1 ab2.2
  resultCh.send
    { Iteration := iteration
      CrimResult := { XName := "Crim", A := ab1.1, B := ab1.2, RSquared := rsq1 }
      RoomsResult := { XName := "Rooms", A := ab2.1, B := ab2.2, RSquared := rsq2 } }

/-- The loop `for i := 0; i < n; i++ { performIteration(i+1, ...) }` with
`k` turns left and the counter at `i`.  The runner starts it with
`k = n.toNat` and `i = 0`; the counter never passes `n`, so `i+1` does not
wrap in a machine `int`. -/
def iterations {F : Type} (S : Stat F) (crim rooms mv : List F) :
    Nat → Int → Chan (IterationResult F) → Except Fault (Chan (IterationResult F))
  | 0, _, ch => .ok ch
  | k + 1, i, ch =>
    match performIteration S (i + 1) crim rooms mv ch with
    | .error e => .error e
    | .ok ch1 => iterations S crim rooms mv k (i + 1) ch1

/-- Lines 154-160 of `performRegression`: make the channel, run the `n`
iterations, close the channel. -/
def producePhase {F : Type} (S : Stat F) (n : Int) (crim rooms mv : List F) :
    Except Fault (Chan (IterationResult F)) :=
  match Chan.make n with
  | .error e => .error e
  | .ok ch0 =>
    match iterations S crim rooms mv n.toNat 0 ch0 with
    | .error e => .error e
    | .ok ch1 => ch1.close

/-- The loop `for res := range resultCh { print res }` on a closed channel:
every buffered value is received in order and rendered, then the loop ends. -/
def drain {F : Type} (render : IterationResult F → List String)
    (ch : Chan (IterationResult F)) : Chan (IterationResult F) × List String :=
  ({ ch with buf := [] }, (ch.buf.map render).flatten)

/-- The function `performRegression`.  The value is the channel as the
function leaves it and the lines written to standard output.  `render` is
the three-line block printed for one result in verbose mode. -/
def performRegression {F : Type} (S : Stat F) (render : IterationResult F → List String)
    (n : Int) (crim rooms mv : List F) (verbose : Bool) :
    Except Fault (Chan (IterationResult F) × List String) :=
  match producePhase S n crim rooms mv with
  | .error e => .error e
  | .ok ch =>
    if verbose then
      let r := drain render ch
      .ok (r.1, r.2 ++ ["Finished all iterations"])
    else
      .ok (ch, ["Finished all iterations"])

/-- The result that iteration `it` sends. -/
def iterationResult {F : Type} (S : Stat F) (crim rooms mv : List F) (it : Int) :
    IterationResult F :=
  { Iteration := it
    CrimResult :=
      { XName := "Crim", A := (S.LinearRegression crim mv).1, B := (S.LinearRegression crim mv).2,
        RSquared := S.RSquared crim mv (S.LinearRegression crim mv).1 (S.LinearRegression crim mv).2 }
    RoomsResult :=
      { XName := "Rooms", A := (S.LinearRegression rooms mv).1, B := (S.LinearRegression rooms mv).2,
        RSquared := S.RSquared rooms mv (S.LinearRegression rooms mv).1 (S.LinearRegression rooms mv).2 } }

/-! ## The CSV reader (`encoding/csv`, as `readData` configures it)

Modelled from the spec and the library's documented behaviour: `csv.Reader`
is library code outside the repository.  `readData` sets `Comma = ','`,
`LazyQuotes = true`, `TrimLeadingSpace = true` and leaves `FieldsPerRecord`
at `0`, so that the first record fixes the field count of all later ones and
no quote is ever an error.  The reader is run on text without carriage
returns, which is what `readData` hands it. -/

/-- A CSV record: its fields in order. -/
abbrev Record := List (List Char)

/-- Modelled from the spec: `unicode.IsSpace` (standard library, not under
`src/`), the leading space that the reader trims from a field. -/
def isSpace (c : Char) : Bool :=
  let n := c.toNat
  n = 0x09 || n = 0x0A || n = 0x0B || n = 0x0C || n = 0x0D || n = 0x20 || n = 0x85 || n = 0xA0
    || n = 0x1680 || (0x2000 ≤ n && n ≤ 0x200A) || n = 0x2028 || n = 0x2029 || n = 0x202F
    || n = 0x205F || n = 0x3000

/-- Where the reader stands in the text. -/
inductive Mode where
  /-- before the first field of a record: blank lines are skipped -/
  | recordStart
  /-- at the start of a field, trimming leading space -/
  | fieldStart
  /-- inside a field that did not open with a quote -/
  | unquoted
  /-- inside a field that opened with a quote -/
  | quoted
  /-- inside a quoted field, just after a quote -/
  | afterQuote
  deriving DecidableEq, Repr

/-- The state of the reader inside the text: its mode, the characters of
the field being read, and the complete fields of the record being read. -/
structure ReadState where
  mode : Mode
  field : List Char
  fields : Record
  deriving DecidableEq, Repr

/-- The end of a record: it is given out and the reader is before the next. -/
def endRecord (fields : Record) (field : List Char) : ReadState × Option Record :=
  ({ mode := .recordStart, field := [], fields := [] }, some (fields ++ [field]))

/-- Modelled from the spec: one character taken by `csv.Reader` (standard
library, not under `src/`) with the settings of `readData`: the next state,
and the record that this character completes, if it does.

* A record ends at a line feed outside a quoted field; a line that is only a
  line feed is no record.
* Space before a field is dropped (`TrimLeadingSpace`).
* A field that does not open with a quote ends at the next comma or line
  feed; quotes in it are kept.
* A quoted field runs over commas and line feeds to its closing quote; `""`
  is one quote; a quote followed by anything but a quote, a comma or a line
  feed is kept with what follows (`LazyQuotes`). -/
def step (st : ReadState) (c : Char) : ReadState × Option Record :=
  match st.mode with
  | .recordStart =>
    if c = '\n' then ({ mode := .recordStart, field := [], fields := [] }, none)
    else if isSpace c then ({ mode := .fieldStart, field := [], fields := [] }, none)
    else if c = '"' then ({ mode := .quoted, field := [], fields := [] }, none)
    else if c = ',' then ({ mode := .fieldStart, field := [], fields := [[]] }, none)
    else ({ mode := .unquoted, field := [c], fields := [] }, none)
  | .fieldStart =>
    if c = '\n' then endRecord st.fields []
    else if isSpace c then ({ mode := .fieldStart, field := [], fields := st.fields }, none)
    else if c = '"' then ({ mode := .quoted, field := [], fields := st.fields }, none)
    else if c = ',' then
      ({ mode := .fieldStart, field := [], fields := st.fields ++ [[]] }, none)
    else ({ mode := .unquoted, field := [c], fields := st.fields }, none)
  | .unquoted =>
    if c = ',' then
      ({ mode := .fieldStart, field := [], fields := st.fields ++ [st.field] }, none)
    else if c = '\n' then endRecord st.fields st.field
    else ({ mode := .unquoted, field := st.field ++ [c], fields := st.fields }, none)
  | .quoted =>
    if c = '"' then ({ mode := .afterQuote, field := st.field, fields := st.fields }, none)
    else ({ mode := .quoted, field := st.field ++ [c], fields := st.fields }, none)
  | .afterQuote =>
    if c = '"' then
      ({ mode := .quoted, field := st.field ++ ['"'], fields := st.fields }, none)
    else if c = ',' then
      ({ mode := .fieldStart, field := [], fields := st.fields ++ [st.field] }, none)
    else if c = '\n' then endRecord st.fields st.field
    else ({ mode := .quoted, field := st.field ++ ['"', c], fields := st.fields }, none)

/-- Modelled from the spec: `csv.Reader` at the end of the text (standard
library, not under `src/`): a record under way is given out, a quoted field
left open included. -/
def finish (st : ReadState) : Option Record :=
  match st.mode with
  | .recordStart => none
  | .fieldStart => some (st.fields ++ [[]])
  | .unquoted => some (st.fields ++ [st.field])
  | .quoted => some (st.fields ++ [st.field])
  | .afterQuote => some (st.fields ++ [st.field])

/-- Modelled from the spec: the records `csv.Reader` finds in the rest of the
text, from state `st`. -/
def scan : ReadState → List Char → List Record
  | st, [] => (finish st).toList
  | st, c :: s => (step st c).2.toList ++ scan (step st c).1 s

/-- Modelled from the spec: the records `csv.Reader` finds in a text, before
the field count is checked. -/
def csvRecords (text : List Char) : List Record :=
  scan { mode := .recordStart, field := [], fields := [] } text

/-- The errors `readData` returns to its caller. -/
inductive LoadError where
  /-- `os.ReadFile` failed -/
  | io
  /-- `io.EOF` from reading the header of a text without records -/
  | eof
  /-- `csv.ErrFieldCount`: a record with another field count than the first -/
  | fieldCount
  deriving DecidableEq, Repr

/-- Modelled from the spec: `reader.Read()` of `csv.Reader` (standard library,
not under `src/`).  What its successive calls give until `io.EOF`: with
`FieldsPerRecord = 0` the first record sets the count and each later record
of another length is `ErrFieldCount`. -/
def reads (text : List Char) : List (Except LoadError Record) :=
  match csvRecords text with
  | [] => []
  | h :: t =>
    .ok h :: t.map (fun r => if r.length = h.length then .ok r else .error .fieldCount)

/-! ## The loader (`main.go` lines 16-32 and 47-131) -/

/-- The struct `record`. -/
structure record (F : Type) where
  neighborhood : List Char
  crim : F
  zn : F
  indus : F
  chas : F
  nox : F
  rooms : F
  age : F
  dis : F
  rad : F
  tax : F
  ptratio : F
  lstat : F
  mv : F

/-- How `readData` ends. -/
inductive Outcome (F : Type) where
  /-- the three slices `crim, rooms, mv` and a nil error -/
  | ok (crim rooms mv : List F)
  /-- nil slices and an error, returned to the caller -/
  | returned (e : LoadError)
  /-- the helper `checkErr` got a parse error: `log.Fatalf` ends the process -/
  | fatal
  /-- an index expression `line[i]` out of range: run-time panic -/
  | indexPanic
  deriving DecidableEq, Repr

/-- The ways the conversion of one line stops the program. -/
inductive Stop where
  | fatal
  | indexPanic
  deriving DecidableEq, Repr

/-- The pair of statements `v, err = strconv.ParseFloat(line[i], 64);
checkErr(err)`. -/
def floatField {F : Type} (ParseFloat : List Char → Option F) (line : Record) (i : Nat) :
    Except Stop F :=
  match (line)[i]? with
  | none => .error .indexPanic
  | some s =>
    match ParseFloat s with
    | none => .error .fatal
    | some v => .ok v

/-- The body of the read loop after a successful `Read` (lines 90-117): the
fourteen fields are taken in order. -/
def parseLine {F : Type} (ParseFloat : List Char → Option F) (line : Record) :
    Except Stop (record F) :=
  match (line)[0]? with
  | none => .error .indexPanic
  | some neighborhood => do
    let crim ← floatField ParseFloat line 1
    let zn ← floatField ParseFloat line 2
    let indus ← floatField ParseFloat line 3
    let chas ← floatField ParseFloat line 4
    let nox ← floatField ParseFloat line 5
    let rooms ← floatField ParseFloat line 6
    let age ← floatField ParseFloat line 7
    let dis ← floatField ParseFloat line 8
    let rad ← floatField ParseFloat line 9
    let tax ← floatField ParseFloat line 10
    let ptratio ← floatField ParseFloat line 11
    let lstat ← floatField ParseFloat line 12
    let mv ← floatField ParseFloat line 13
    pure { neighborhood, crim, zn, indus, chas, nox, rooms, age, dis, rad, tax, ptratio,
           lstat, mv }

/-- The read loop (lines 81-120) over the remaining results of `Read`, with
the records gathered so far. -/
def readLoop {F : Type} (ParseFloat : List Char → Option F) :
    List (Except LoadError Record) → List (record F) → Outcome F ⊕ List (record F)
  | [], records => .inr records
  | .error e :: _, _ => .inl (.returned e)
  | .ok line :: rest, records =>
    match parseLine ParseFloat line with
    | .error .fatal => .inl .fatal
    | .error .indexPanic => .inl .indexPanic
    | .ok rec => readLoop ParseFloat rest (records ++ [rec])

/-- The call `strings.ReplaceAll(string(data), "\r", "\n")`. -/
def replaceCR (data : List Char) : List Char :=
  data.map (fun c => if c = '\r' then '\n' else c)

/-- The function `readData`.  `file` is what `os.ReadFile(csvPath)` gives:
`none` for an error, the content otherwise. -/
def readData {F : Type} (ParseFloat : List Char → Option F) (file : Option (List Char)) :
    Outcome F :=
  match file with
  | none => .returned .io
  | some data =>
    match reads (replaceCR data) with
    | [] => .returned .eof
    | .error e :: _ => .returned e
    | .ok _ :: rest =>
      match readLoop ParseFloat rest [] with
      | .inl stop => stop
      | .inr records =>
        .ok (records.map (·.crim)) (records.map (·.rooms)) (records.map (·.mv))

/-- A sample of `strconv.ParseFloat`: the unsigned decimal integers, read as
natural numbers.  `ParseFloat` gives the same number on each of them. -/
def parseDigits (s : List Char) : Option Nat :=
  if s ≠ [] ∧ s.all Char.isDigit then
    some (s.foldl (fun n c => 10 * n + (c.toNat - '0'.toNat)) 0)
  else none

/-! ## Sample files -/

/-- A file of the expected shape: a header and two data rows of 14 fields. -/
def sampleFile : List Char :=
  ("neighborhood,crim,zn,indus,chas,nox,rooms,age,dis,rad,tax,ptratio,lstat,mv\n"
    ++ "Nahant,1,18,2,0,5,6,65,4,1,296,15,5,24\n"
    ++ "Swampscott,3,0,7,0,4,7,78,5,2,242,17,9,21\n").toList

/-- The header of `sampleFile`. -/
def sampleHeader : Record :=
  ["neighborhood", "crim", "zn", "indus", "chas", "nox", "rooms", "age", "dis", "rad", "tax",
    "ptratio", "lstat", "mv"].map String.toList

/-- The first data row of `sampleFile`. -/
def sampleRow1 : Record :=
  ["Nahant", "1", "18", "2", "0", "5", "6", "65", "4", "1", "296", "15", "5", "24"].map
    String.toList

/-- The second data row of `sampleFile`. -/
def sampleRow2 : Record :=
  ["Swampscott", "3", "0", "7", "0", "4", "7", "78", "5", "2", "242", "17", "9", "21"].map
    String.toList

/-- The data rows of `sampleFile`. -/
def sampleRows : List Record :=
  [sampleRow1, sampleRow2]

/-- A second data row whose `rooms` field is not a number. -/
def badNumberRow : Record :=
  ["Swampscott", "3", "0", "7", "0", "4", "seven", "78", "5", "2", "242", "17", "9", "21"].map
    String.toList

/-- The sample with the `rooms` field of its second data row not a number. -/
def badNumberFile : List Char :=
  ("neighborhood,crim,zn,indus,chas,nox,rooms,age,dis,rad,tax,ptratio,lstat,mv\n"
    ++ "Nahant,1,18,2,0,5,6,65,4,1,296,15,5,24\n"
    ++ "Swampscott,3,0,7,0,4,seven,78,5,2,242,17,9,21\n").toList

/-- A file whose header and single data row both have 2 fields. -/
def narrowFile : List Char :=
  "neighborhood,crim\nNahant,1\n".toList

/-! ## Line breaks -/

/-- How one line break of a file is written. -/
inductive Break where
  | lf
  | crlf
  | cr
  deriving DecidableEq, Repr

/-- The characters of a line break. -/
def Break.chars : Break → List Char
  | .lf => ['\n']
  | .crlf => ['\r', '\n']
  | .cr => ['\r']

/-- The text `s` with its line feeds rewritten in turn as the list says; the
line feeds past the end of the list stay as they are. -/
def rewriteBreaks : List Break → List Char → List Char
  | _, [] => []
  | [], c :: s => c :: rewriteBreaks [] s
  | b :: bs, c :: s =>
    if c = '\n' then b.chars ++ rewriteBreaks bs s
    else c :: rewriteBreaks (b :: bs) s

/-! ## Comparing two readings -/

/-- Two fields that no number parser tells apart: the same field, or two
fields with a line feed in each. -/
def FieldRel (f g : List Char) : Prop :=
  f = g ∨ ('\n' ∈ f ∧ '\n' ∈ g)

/-- Two records with as many fields, related in pairs. -/
def RecordRel (r s : Record) : Prop :=
  List.Forall₂ FieldRel r s

/-- Two reader states in the same mode with related contents. -/
def StateRel (a b : ReadState) : Prop :=
  a.mode = b.mode ∧ FieldRel a.field b.field ∧ RecordRel a.fields b.fields

/-- Two results of `Read`: the same error, or two related records. -/
def ReadRel : Except LoadError Record → Except LoadError Record → Prop
  | .ok r, .ok s => RecordRel r s
  | .error e, .error e' => e = e'
  | _, _ => False

/-- Two converted lines that agree on every number. -/
def SameNumbers {F : Type} (a b : record F) : Prop :=
  a.crim = b.crim ∧ a.rooms = b.rooms ∧ a.mv = b.mv

/-- Two results of converting a line: the same stop, or two lines that agree
on every number. -/
def LineRel {F : Type} : Except Stop (record F) → Except Stop (record F) → Prop
  | .ok a, .ok b => SameNumbers a b
  | .error e, .error e' => e = e'
  | _, _ => False

/-- Two results of the read loop: the same way out, or two lists of lines
that agree on every number. -/
def LoopRel {F : Type} : Outcome F ⊕ List (record F) → Outcome F ⊕ List (record F) → Prop
  | .inl a, .inl b => a = b
  | .inr a, .inr b => List.Forall₂ SameNumbers a b
  | _, _ => False

/-! ## The regression in exact arithmetic

Modelled from the spec: `stat.LinearRegression` and `stat.RSquared` are
library code (`gonum`), outside the repository.  Section 4.2 of the
specification gives them as `slope = cov(x,y) / var(x)`,
`intercept = mean(y) - slope·mean(x)` and `R² = 1 - SS_res/SS_tot`.  The
numbers are rationals; a quotient by zero has no value (`none`), which is
where the floating-point code yields a value that is not finite. -/

namespace Exact

/-- A quotient, without value when the divisor is zero. -/
def quot (a b : ℚ) : Option ℚ :=
  if b = 0 then none else some (a / b)

/-- Modelled from the spec: `mean(x)` of section 4.2 (`stat.Mean` of `gonum`,
not under `src/`). -/
def Mean (x : List ℚ) : Option ℚ :=
  quot x.sum x.length

/-- Modelled from the spec: `var(x)` of section 4.2 (`stat.Variance` of
`gonum`, not under `src/`), the sample variance with divisor `n - 1`. -/
def Variance (x : List ℚ) : Option ℚ := do
  let xu ← Mean x
  quot (x.map (fun xi => (xi - xu) ^ 2)).sum ((x.length : ℚ) - 1)

/-- Modelled from the spec: `cov(x,y)` of section 4.2 (`stat.Covariance` of
`gonum`, not under `src/`), the sample covariance with divisor `n - 1`. -/
def Covariance (x y : List ℚ) : Option ℚ := do
  let xu ← Mean x
  let yu ← Mean y
  quot (List.zipWith (fun xi yi => (xi - xu) * (yi - yu)) x y).sum ((x.length : ℚ) - 1)

/-- Modelled from the spec: `stat.LinearRegression` of `gonum`, not under
`src/`.  The call `stat.LinearRegression(x, y, nil, false)`: the pair
`(alpha, beta)` of intercept and slope, `beta = cov(x,y) / var(x)` and
`alpha = mean(y) - beta·mean(x)`. -/
def LinearRegression (x y : List ℚ) : Option (ℚ × ℚ) :=
  if x.length ≠ y.length then none
  else do
    let xu ← Mean x
    let xv ← Variance x
    let yu ← Mean y
    let cov ← Covariance x y
    let beta ← quot cov xv
    pure (yu - beta * xu, beta)

/-- Modelled from the spec: `SS_res` of section 4.2, the sum of squared
residuals of `y` against the line `alpha + beta·x`. -/
def ssRes (x y : List ℚ) (alpha beta : ℚ) : ℚ :=
  (List.zipWith (fun xi yi => (yi - (alpha + beta * xi)) ^ 2) x y).sum

/-- Modelled from the spec: `stat.RSquared` of `gonum`, not under `src/`.
The call `stat.RSquared(x, y, nil, alpha, beta)`:
`1 - SS_res / SS_tot` with `SS_tot = Σ (y_i - mean(y))²`. -/
def RSquared (x y : List ℚ) (alpha beta : ℚ) : Option ℚ :=
  if x.length ≠ y.length then none
  else do
    let yu ← Mean y
    let q ← quot (ssRes x y alpha beta) (y.map (fun yi => (yi - yu) ^ 2)).sum
    pure (1 - q)

end Exact

/-! ## The runner: lemmas -/

theorem performIteration_ok {F : Type} (S : Stat F) (it : Int) (crim rooms mv : List F)
    (ch : Chan (IterationResult F)) (hopen : ch.closed = false) (hroom : ch.buf.length < ch.cap) :
    performIteration S it crim rooms mv ch
      = .ok { ch with buf := ch.buf ++ [iterationResult S crim rooms mv it] } := by
  simp [performIteration, Chan.send, hopen, hroom, iterationResult]

theorem iterations_ok {F : Type} (S : Stat F) (crim rooms mv : List F) (k : Nat) :
    ∀ (i : Int) (ch : Chan (IterationResult F)), ch.closed = false →
      ch.buf.length + k ≤ ch.cap →
      iterations S crim rooms mv k i ch
        = .ok { ch with
                buf := ch.buf ++ (List.range k).map
                  (fun (j : Nat) => iterationResult S crim rooms mv (i + 1 + (j : Int))) } := by
  induction k with
  | zero => intro i ch _ _; simp [iterations]
  | succ k ih =>
    intro i ch hopen hroom
    have h1 : ch.buf.length < ch.cap := by omega
    rw [iterations, performIteration_ok S (i + 1) crim rooms mv ch hopen h1]
    simp only
    rw [ih (i + 1) { ch with buf := ch.buf ++ [iterationResult S crim rooms mv (i + 1)] } hopen
      (by simp; omega)]
    simp only [List.range_succ_eq_map, List.map_cons, List.map_map, List.append_assoc,
      List.singleton_append, Nat.cast_zero, add_zero]
    congr 4
    apply List.map_congr_left
    intro j _
    simp only [Function.comp, Nat.cast_succ]
    congr 1
    ring

/-- The producer phase for any `n ≥ 0`: the channel is closed and holds the
results of iterations `1, 2, ..., n` in that order. -/
theorem producePhase_ok {F : Type} (S : Stat F) (n : Int) (crim rooms mv : List F)
    (hn : 0 ≤ n) :
    producePhase S n crim rooms mv
      = .ok { cap := n.toNat
              buf := (List.range n.toNat).map
                (fun (j : Nat) => iterationResult S crim rooms mv ((j : Int) + 1))
              closed := true } := by
  have hmake : (Chan.make n : Except Fault (Chan (IterationResult F)))
      = .ok { cap := n.toNat, buf := [], closed := false } := by
    simp [Chan.make, not_lt.mpr hn]
  rw [producePhase, hmake]
  simp only
  rw [iterations_ok S crim rooms mv n.toNat 0 _ rfl (by simp)]
  simp [Chan.close, add_comm]

/-- C10: for `n = 0`, verbose or not, `performRegression` sends nothing,
leaves the channel closed and empty, and writes the single line
`Finished all iterations`, without a fault. -/
theorem C10_performRegression_zero_iterations {F : Type} (S : Stat F)
    (render : IterationResult F → List String) (crim rooms mv : List F) (verbose : Bool) :
    producePhase S 0 crim rooms mv = .ok { cap := 0, buf := [], closed := true } ∧
      performRegression S render 0 crim rooms mv verbose
        = .ok ({ cap := 0, buf := [], closed := true }, ["Finished all iterations"]) := by
  have h := producePhase_ok S 0 crim rooms mv (le_refl 0)
  simp only [Int.toNat_zero, List.range_zero, List.map_nil] at h
  refine ⟨h, ?_⟩
  cases verbose <;> simp [performRegression, h, drain]

/-! ## The regression in exact arithmetic: lemmas -/

namespace Exact

theorem sum_centred_sq (m : ℚ) (x : List ℚ) :
    (x.map (fun xi => (xi - m) ^ 2)).sum
      = (x.map (fun xi => xi ^ 2)).sum - 2 * m * x.sum + x.length * m ^ 2 := by
  induction x with
  | nil => simp
  | cons a t ih => simp only [List.map_cons, List.sum_cons, List.length_cons, Nat.cast_succ, ih]; ring

theorem sum_centred_prod (m k : ℚ) (x : List ℚ) :
    ∀ y : List ℚ, x.length = y.length →
    (List.zipWith (fun xi yi => (xi - m) * (yi - k)) x y).sum
      = (List.zipWith (fun xi yi => xi * yi) x y).sum - k * x.sum - m * y.sum
        + x.length * m * k := by
  induction x with
  | nil =>
    intro y h
    have hy : y = [] := List.length_eq_zero.mp h.symm
    subst hy; simp
  | cons a t ih =>
    intro y h
    cases y with
    | nil => simp at h
    | cons b u =>
      simp only [List.length_cons, add_left_inj] at h
      simp only [List.zipWith_cons_cons, List.sum_cons, List.length_cons, Nat.cast_succ, ih u h]
      ring

theorem ssRes_expand (a b : ℚ) (x : List ℚ) :
    ∀ y : List ℚ, x.length = y.length →
    ssRes x y a b
      = (y.map (fun yi => yi ^ 2)).sum - 2 * a * y.sum
        - 2 * b * (List.zipWith (fun xi yi => xi * yi) x y).sum
        + x.length * a ^ 2 + 2 * a * b * x.sum + b ^ 2 * (x.map (fun xi => xi ^ 2)).sum := by
  induction x with
  | nil =>
    intro y h
    have hy : y = [] := List.length_eq_zero.mp h.symm
    subst hy; simp [ssRes]
  | cons c t ih =>
    intro y h
    cases y with
    | nil => simp at h
    | cons d u =>
      simp only [List.length_cons, add_left_inj] at h
      have := ih u h
      simp only [ssRes] at this ⊢
      simp only [List.zipWith_cons_cons, List.sum_cons, List.length_cons, Nat.cast_succ,
        List.map_cons, this]
      ring

theorem sum_centred_sq_nonneg (m : ℚ) (x : List ℚ) :
    0 ≤ (x.map (fun xi => (xi - m) ^ 2)).sum := by
  apply List.sum_nonneg
  intro v hv
  simp only [List.mem_map] at hv
  obtain ⟨u, _, rfl⟩ := hv
  positivity

theorem eq_of_sum_centred_sq_eq_zero (m : ℚ) (x : List ℚ)
    (h : (x.map (fun xi => (xi - m) ^ 2)).sum = 0) : ∀ u ∈ x, u = m := by
  induction x with
  | nil => intro u hu; simp at hu
  | cons a t ih =>
    simp only [List.map_cons, List.sum_cons] at h
    have h1 : 0 ≤ (a - m) ^ 2 := by positivity
    have h2 := sum_centred_sq_nonneg m t
    have h3 : (a - m) ^ 2 = 0 := by linarith
    have h4 : (t.map (fun xi => (xi - m) ^ 2)).sum = 0 := by linarith
    intro u hu
    rcases List.mem_cons.mp hu with rfl | hu
    · have := pow_eq_zero_iff (n := 2) (by norm_num) |>.mp h3
      linarith
    · exact ih h4 u hu


theorem centred_ne_zero (x : List ℚ) (m : ℚ) (hx : ∃ u ∈ x, ∃ v ∈ x, u ≠ v) :
    (x.map (fun xi => (xi - m) ^ 2)).sum ≠ 0 := by
  intro h
  obtain ⟨u, hu, v, hv, huv⟩ := hx
  have h1 := eq_of_sum_centred_sq_eq_zero m x h
  exact huv ((h1 u hu).trans (h1 v hv).symm)

theorem LinearRegression_eq (x y : List ℚ) (hlen : x.length = y.length) (hn : 2 ≤ x.length)
    (hx : ∃ u ∈ x, ∃ v ∈ x, u ≠ v) :
    LinearRegression x y
      = some (y.sum / x.length
                - (List.zipWith (fun xi yi => (xi - x.sum / x.length) * (yi - y.sum / x.length)) x y).sum
                    / (x.map (fun xi => (xi - x.sum / x.length) ^ 2)).sum * (x.sum / x.length),
              (List.zipWith (fun xi yi => (xi - x.sum / x.length) * (yi - y.sum / x.length)) x y).sum
                / (x.map (fun xi => (xi - x.sum / x.length) ^ 2)).sum) := by
  have hn0 : (x.length : ℚ) ≠ 0 := by
    have : (2 : ℚ) ≤ x.length := by exact_mod_cast hn
    linarith
  have hn1 : (x.length : ℚ) - 1 ≠ 0 := by
    have : (2 : ℚ) ≤ x.length := by exact_mod_cast hn
    linarith
  have hD := centred_ne_zero x (x.sum / x.length) hx
  have hv : (x.map (fun xi => (xi - x.sum / x.length) ^ 2)).sum / ((x.length : ℚ) - 1) ≠ 0 :=
    div_ne_zero hD hn1
  simp only [LinearRegression, Mean, Variance, Covariance, quot, ← hlen, hn0, hn1, hv,
    if_false, ne_eq, not_true_eq_false, Option.bind_eq_bind, Option.some_bind, Option.pure_def,
    bind_pure_comp, Option.map_some']
  congr 2
  · field_simp
  · field_simp


theorem ols_gap (n m k Sxx Sxy Syy a b β : ℚ)
    (hβ : β * (Sxx - 2 * m * (n * m) + n * m ^ 2)
            = Sxy - k * (n * m) - m * (n * k) + n * m * k) :
    (Syy - 2 * a * (n * k) - 2 * b * Sxy + n * a ^ 2 + 2 * a * b * (n * m) + b ^ 2 * Sxx)
      - (Syy - 2 * (k - β * m) * (n * k) - 2 * β * Sxy + n * (k - β * m) ^ 2
          + 2 * (k - β * m) * β * (n * m) + β ^ 2 * Sxx)
      = n * (a - (k - β * m) + (b - β) * m) ^ 2
          + (Sxx - 2 * m * (n * m) + n * m ^ 2) * (b - β) ^ 2 := by
  linear_combination (2 * (b - β)) * hβ

/-- C1: in exact arithmetic, for `x` and `y` of equal length at least 2 with
the values of `x` not all identical, `stat.LinearRegression(x, y, nil, false)`
returns a pair `(alpha, beta)`, and that line minimises the sum of squared
residuals: no pair `(a, b)` has a smaller one. -/
theorem C1_linearRegression_minimises (x y : List ℚ) (hlen : x.length = y.length)
    (hn : 2 ≤ x.length) (hx : ∃ u ∈ x, ∃ v ∈ x, u ≠ v) :
    ∃ alpha beta : ℚ, LinearRegression x y = some (alpha, beta) ∧
      ∀ a b : ℚ, ssRes x y alpha beta ≤ ssRes x y a b := by
  refine ⟨_, _, LinearRegression_eq x y hlen hn hx, ?_⟩
  intro a b
  have hn0 : (x.length : ℚ) ≠ 0 := by
    have : (2 : ℚ) ≤ x.length := by exact_mod_cast hn
    linarith
  have hnpos : (0 : ℚ) ≤ x.length := Nat.cast_nonneg _
  have hD := centred_ne_zero x (x.sum / x.length) hx
  have hDnn := sum_centred_sq_nonneg (x.sum / x.length) x
  have hSx : x.sum = x.length * (x.sum / x.length) := by field_simp
  have hSy : y.sum = x.length * (y.sum / x.length) := by field_simp
  rw [ssRes_expand _ _ x y hlen, ssRes_expand _ _ x y hlen]
  rw [sum_centred_prod _ _ x y hlen] at *
  rw [sum_centred_sq] at hD hDnn ⊢
  generalize x.sum / (x.length : ℚ) = m at *
  generalize y.sum / (x.length : ℚ) = k at *
  generalize (x.length : ℚ) = n at *
  generalize (List.map (fun xi => xi ^ 2) x).sum = Sxx at *
  generalize (List.map (fun yi => yi ^ 2) y).sum = Syy at *
  generalize (List.zipWith (fun xi yi => xi * yi) x y).sum = Sxy at *
  rw [hSx, hSy] at *
  have hβ : (Sxy - k * (n * m) - m * (n * k) + n * m * k) / (Sxx - 2 * m * (n * m) + n * m ^ 2)
      * (Sxx - 2 * m * (n * m) + n * m ^ 2)
      = Sxy - k * (n * m) - m * (n * k) + n * m * k := div_mul_cancel₀ _ hD
  have key := ols_gap n m k Sxx Sxy Syy a b _ hβ
  have h1 : 0 ≤ n * (a - (k - (Sxy - k * (n * m) - m * (n * k) + n * m * k)
      / (Sxx - 2 * m * (n * m) + n * m ^ 2) * m)
      + (b - (Sxy - k * (n * m) - m * (n * k) + n * m * k)
      / (Sxx - 2 * m * (n * m) + n * m ^ 2)) * m) ^ 2 := by positivity
  have h2 : 0 ≤ (Sxx - 2 * m * (n * m) + n * m ^ 2) * (b - (Sxy - k * (n * m) - m * (n * k) + n * m * k)
      / (Sxx - 2 * m * (n * m) + n * m ^ 2)) ^ 2 := mul_nonneg hDnn (by positivity)
  linarith


theorem C1_linearRegression_minimises_witness :
    ([1, 2, 3, 4, 5] : List ℚ).length = ([3, 5, 8, 9, 12] : List ℚ).length ∧
      2 ≤ ([1, 2, 3, 4, 5] : List ℚ).length ∧
      (∃ u ∈ ([1, 2, 3, 4, 5] : List ℚ), ∃ v ∈ ([1, 2, 3, 4, 5] : List ℚ), u ≠ v) ∧
      ∃ alpha beta : ℚ,
        LinearRegression [1, 2, 3, 4, 5] [3, 5, 8, 9, 12] = some (alpha, beta) ∧
          ∀ a b : ℚ, ssRes [1, 2, 3, 4, 5] [3, 5, 8, 9, 12] alpha beta
            ≤ ssRes [1, 2, 3, 4, 5] [3, 5, 8, 9, 12] a b :=
  ⟨rfl, by decide, ⟨1, by simp, 2, by simp, by norm_num⟩,
    C1_linearRegression_minimises [1, 2, 3, 4, 5] [3, 5, 8, 9, 12] rfl (by decide)
      ⟨1, by simp, 2, by simp, by norm_num⟩⟩

theorem sum_map_affine (a b : ℚ) (x : List ℚ) :
    (x.map (fun xi => a + b * xi)).sum = x.length * a + b * x.sum := by
  induction x with
  | nil => simp
  | cons c t ih => simp only [List.map_cons, List.sum_cons, List.length_cons, Nat.cast_succ, ih]; ring

theorem zipWith_map_self (f : ℚ → ℚ → ℚ) (g : ℚ → ℚ) (x : List ℚ) :
    List.zipWith f x (x.map g) = x.map (fun u => f u (g u)) := by
  induction x with
  | nil => simp
  | cons c t ih => simp [ih]

/-- C5: in exact arithmetic, for `x` of length at least 2 with two distinct
values and `y_i = a + b·x_i` with `b ≠ 0`, the regression returns intercept
`a` and slope `b`, and the R-squared of that line is `1`. -/
theorem C5_exact_line_fit (x : List ℚ) (a b : ℚ) (hn : 2 ≤ x.length)
    (hx : ∃ u ∈ x, ∃ v ∈ x, u ≠ v) (hb : b ≠ 0) :
    LinearRegression x (x.map (fun xi => a + b * xi)) = some (a, b) ∧
      RSquared x (x.map (fun xi => a + b * xi)) a b = some 1 := by
  have hn0 : (x.length : ℚ) ≠ 0 := by
    have : (2 : ℚ) ≤ x.length := by exact_mod_cast hn
    linarith
  have hD := centred_ne_zero x (x.sum / x.length) hx
  have hmean : (x.map (fun xi => a + b * xi)).sum / (x.length : ℚ) = a + b * (x.sum / x.length) := by
    rw [sum_map_affine]; field_simp; ring
  have hcov : (List.zipWith (fun xi yi => (xi - x.sum / x.length)
        * (yi - (x.map (fun xi => a + b * xi)).sum / x.length)) x (x.map (fun xi => a + b * xi))).sum
      = b * (x.map (fun xi => (xi - x.sum / x.length) ^ 2)).sum := by
    rw [zipWith_map_self, hmean, ← List.sum_map_mul_left]
    congr 1
    apply List.map_congr_left
    intro u _
    ring
  have htot : ((x.map (fun xi => a + b * xi)).map
        (fun yi => (yi - (a + b * (x.sum / x.length))) ^ 2)).sum
      = b ^ 2 * (x.map (fun xi => (xi - x.sum / x.length) ^ 2)).sum := by
    rw [List.map_map, ← List.sum_map_mul_left]
    congr 1
    apply List.map_congr_left
    intro u _
    simp only [Function.comp]
    ring
  have hres : ssRes x (x.map (fun xi => a + b * xi)) a b = 0 := by
    rw [ssRes, zipWith_map_self]
    apply List.sum_eq_zero
    intro v hv
    simp only [List.mem_map] at hv
    obtain ⟨u, _, rfl⟩ := hv
    ring
  constructor
  · rw [LinearRegression_eq x _ (by simp) hn hx, hcov, hmean, mul_div_cancel_right₀ b hD]
    congr 2
    ring
  · have htot0 : b ^ 2 * (x.map (fun xi => (xi - x.sum / x.length) ^ 2)).sum ≠ 0 :=
      mul_ne_zero (pow_ne_zero 2 hb) hD
    simp only [RSquared, Mean, quot, List.length_map, hn0, hmean, htot, htot0, hres,
      if_false, ne_eq, not_true_eq_false, Option.bind_eq_bind, Option.some_bind, Option.pure_def,
      zero_div, sub_zero]

theorem C5_exact_line_fit_witness :
    2 ≤ ([1, 2, 3, 4, 5] : List ℚ).length ∧
      (∃ u ∈ ([1, 2, 3, 4, 5] : List ℚ), ∃ v ∈ ([1, 2, 3, 4, 5] : List ℚ), u ≠ v) ∧
      (2 : ℚ) ≠ 0 ∧
      LinearRegression [1, 2, 3, 4, 5] [3, 5, 7, 9, 11] = some (1, 2) ∧
        RSquared [1, 2, 3, 4, 5] [3, 5, 7, 9, 11] 1 2 = some 1 := by
  have h := C5_exact_line_fit [1, 2, 3, 4, 5] 1 2 (by decide)
    ⟨1, by simp, 2, by simp, by norm_num⟩ (by norm_num)
  have hy : ([1, 2, 3, 4, 5] : List ℚ).map (fun xi => 1 + 2 * xi) = [3, 5, 7, 9, 11] := by
    norm_num
  rw [hy] at h
  exact ⟨by decide, ⟨1, by simp, 2, by simp, by norm_num⟩, by norm_num, h⟩

end Exact

/-! ## The loader: lemmas -/

/-- A line whose thirteen numeric fields are there and parse. -/
theorem parseLine_ok {F : Type} (P : List Char → Option F) (line : Record)
    (hlen : line.length = 14)
    (hnum : ∀ i : Nat, 1 ≤ i → i ≤ 13 → ∃ s v, (line)[i]? = some s ∧ P s = some v) :
    ∃ rec : record F, parseLine P line = .ok rec ∧
      ((line)[1]?.bind P = some rec.crim ∧ (line)[6]?.bind P = some rec.rooms ∧
        (line)[13]?.bind P = some rec.mv) := by
  obtain ⟨s0, h0⟩ : ∃ s, (line)[0]? = some s := by
    cases line with
    | nil => simp at hlen
    | cons a t => exact ⟨a, by simp⟩
  obtain ⟨s1, v1, h1, p1⟩ := hnum 1 (by omega) (by omega)
  obtain ⟨s2, v2, h2, p2⟩ := hnum 2 (by omega) (by omega)
  obtain ⟨s3, v3, h3, p3⟩ := hnum 3 (by omega) (by omega)
  obtain ⟨s4, v4, h4, p4⟩ := hnum 4 (by omega) (by omega)
  obtain ⟨s5, v5, h5, p5⟩ := hnum 5 (by omega) (by omega)
  obtain ⟨s6, v6, h6, p6⟩ := hnum 6 (by omega) (by omega)
  obtain ⟨s7, v7, h7, p7⟩ := hnum 7 (by omega) (by omega)
  obtain ⟨s8, v8, h8, p8⟩ := hnum 8 (by omega) (by omega)
  obtain ⟨s9, v9, h9, p9⟩ := hnum 9 (by omega) (by omega)
  obtain ⟨s10, v10, h10, p10⟩ := hnum 10 (by omega) (by omega)
  obtain ⟨s11, v11, h11, p11⟩ := hnum 11 (by omega) (by omega)
  obtain ⟨s12, v12, h12, p12⟩ := hnum 12 (by omega) (by omega)
  obtain ⟨s13, v13, h13, p13⟩ := hnum 13 (by omega) (by omega)
  refine ⟨{ neighborhood := s0, crim := v1, zn := v2, indus := v3, chas := v4, nox := v5,
            rooms := v6, age := v7, dis := v8, rad := v9, tax := v10, ptratio := v11,
            lstat := v12, mv := v13 }, ?_, ?_⟩
  · simp only [parseLine, floatField, h0, h1, h2, h3, h4, h5, h6, h7, h8, h9, h10, h11, h12, h13,
      p1, p2, p3, p4, p5, p6, p7, p8, p9, p10, p11, p12, p13]
    rfl
  · simp [h1, h6, h13, p1, p6, p13]

theorem readLoop_ok {F : Type} (P : List Char → Option F) (rows : List Record) :
    ∀ acc : List (record F),
    (∀ row ∈ rows, row.length = 14 ∧
      ∀ i : Nat, 1 ≤ i → i ≤ 13 → ∃ s v, (row)[i]? = some s ∧ P s = some v) →
    ∃ recs : List (record F),
      readLoop P (rows.map .ok) acc = .inr (acc ++ recs) ∧
        rows.map (fun row => (row)[1]?.bind P) = recs.map (fun r => some r.crim) ∧
        rows.map (fun row => (row)[6]?.bind P) = recs.map (fun r => some r.rooms) ∧
        rows.map (fun row => (row)[13]?.bind P) = recs.map (fun r => some r.mv) := by
  induction rows with
  | nil => intro acc _; exact ⟨[], by simp [readLoop]⟩
  | cons row rest ih =>
    intro acc h
    obtain ⟨hlen, hnum⟩ := h row (List.mem_cons_self _ _)
    obtain ⟨rec, hrec, c1, c6, c13⟩ := parseLine_ok P row hlen hnum
    obtain ⟨recs, hloop, r1, r6, r13⟩ :=
      ih (acc ++ [rec]) (fun r hr => h r (List.mem_cons_of_mem _ hr))
    refine ⟨rec :: recs, ?_, ?_, ?_, ?_⟩
    · simp only [List.map_cons, readLoop, hrec, hloop, List.append_assoc, List.singleton_append]
    · simp [c1, r1]
    · simp [c6, r6]
    · simp [c13, r13]

/-- C3: when the text reads as a header followed by `k` data rows of 14
fields whose fields 1 to 13 are numeric, `readData` returns three slices of
length `k`, and entry `i` of `crim`, `rooms` and `mv` is the parsed value of
field 1, 6 and 13 of data row `i`. -/
theorem C3_readData_columns_aligned {F : Type} (P : List Char → Option F) (data : List Char)
    (header : Record) (rows : List Record)
    (hread : reads (replaceCR data) = .ok header :: rows.map .ok)
    (hrows : ∀ row ∈ rows, row.length = 14 ∧
      ∀ i : Nat, 1 ≤ i → i ≤ 13 → ∃ s v, (row)[i]? = some s ∧ P s = some v) :
    ∃ crim rooms mv : List F,
      readData P (some data) = .ok crim rooms mv ∧
        crim.length = rows.length ∧ rooms.length = rows.length ∧ mv.length = rows.length ∧
        rows.map (fun row => (row)[1]?.bind P) = crim.map some ∧
        rows.map (fun row => (row)[6]?.bind P) = rooms.map some ∧
        rows.map (fun row => (row)[13]?.bind P) = mv.map some := by
  obtain ⟨recs, hloop, r1, r6, r13⟩ := readLoop_ok P rows [] hrows
  have hl : recs.length = rows.length := by
    have := congrArg List.length r1
    simpa using this.symm
  refine ⟨recs.map (·.crim), recs.map (·.rooms), recs.map (·.mv), ?_, by simp [hl], by simp [hl],
    by simp [hl], ?_, ?_, ?_⟩
  · simp only [readData, hread, hloop, List.nil_append]
  · simp [r1, List.map_map, Function.comp_def]
  · simp [r6, List.map_map, Function.comp_def]
  · simp [r13, List.map_map, Function.comp_def]

theorem floatField_cases {F : Type} (P : List Char → Option F) (line : Record) (i : Nat)
    (hi : i < line.length) :
    floatField P line i = .error .fatal ∨ ∃ v, floatField P line i = .ok v := by
  obtain ⟨s, h⟩ : ∃ s, (line)[i]? = some s := ⟨_, List.getElem?_eq_getElem hi⟩
  cases hP : P s with
  | none => left; simp only [floatField, h, hP]
  | some v => right; exact ⟨v, by simp only [floatField, h, hP]⟩

theorem bind_fatal_or_ok {α β : Type} (x : Except Stop α) (f : α → Except Stop β)
    (hx : x = .error .fatal ∨ ∃ v, x = .ok v)
    (hf : ∀ v, f v = .error .fatal ∨ ∃ w, f v = .ok w) :
    (x >>= f) = .error .fatal ∨ ∃ w, (x >>= f) = .ok w := by
  rcases hx with hx | ⟨v, hx⟩
  · left; subst hx; rfl
  · subst hx; exact hf v

theorem bind_fatal_here {α β : Type} (x : Except Stop α) (f : α → Except Stop β)
    (hx : x = .error .fatal) : (x >>= f) = .error .fatal := by
  subst hx; rfl

theorem bind_fatal_later {α β : Type} (x : Except Stop α) (f : α → Except Stop β)
    (hx : x = .error .fatal ∨ ∃ v, x = .ok v) (hf : ∀ v, f v = .error .fatal) :
    (x >>= f) = .error .fatal := by
  rcases hx with hx | ⟨v, hx⟩
  · subst hx; rfl
  · subst hx; exact hf v

/-- A line of 14 fields never faults on an index. -/
theorem parseLine_fatal_or_ok {F : Type} (P : List Char → Option F) (line : Record)
    (hlen : line.length = 14) :
    parseLine P line = .error .fatal ∨ ∃ rec, parseLine P line = .ok rec := by
  obtain ⟨s0, h0⟩ : ∃ s, (line)[0]? = some s := by
    cases line with
    | nil => simp at hlen
    | cons a t => exact ⟨a, by simp⟩
  simp only [parseLine, h0]
  refine bind_fatal_or_ok _ _ (floatField_cases P line 1 (by omega)) (fun _ => ?_)
  refine bind_fatal_or_ok _ _ (floatField_cases P line 2 (by omega)) (fun _ => ?_)
  refine bind_fatal_or_ok _ _ (floatField_cases P line 3 (by omega)) (fun _ => ?_)
  refine bind_fatal_or_ok _ _ (floatField_cases P line 4 (by omega)) (fun _ => ?_)
  refine bind_fatal_or_ok _ _ (floatField_cases P line 5 (by omega)) (fun _ => ?_)
  refine bind_fatal_or_ok _ _ (floatField_cases P line 6 (by omega)) (fun _ => ?_)
  refine bind_fatal_or_ok _ _ (floatField_cases P line 7 (by omega)) (fun _ => ?_)
  refine bind_fatal_or_ok _ _ (floatField_cases P line 8 (by omega)) (fun _ => ?_)
  refine bind_fatal_or_ok _ _ (floatField_cases P line 9 (by omega)) (fun _ => ?_)
  refine bind_fatal_or_ok _ _ (floatField_cases P line 10 (by omega)) (fun _ => ?_)
  refine bind_fatal_or_ok _ _ (floatField_cases P line 11 (by omega)) (fun _ => ?_)
  refine bind_fatal_or_ok _ _ (floatField_cases P line 12 (by omega)) (fun _ => ?_)
  refine bind_fatal_or_ok _ _ (floatField_cases P line 13 (by omega)) (fun _ => ?_)
  exact Or.inr ⟨_, rfl⟩

/-- A line of 14 fields with a field among 1..13 that does not parse stops
the program through `checkErr`. -/
theorem parseLine_fatal {F : Type} (P : List Char → Option F) (line : Record)
    (hlen : line.length = 14) (p : Nat) (hp1 : 1 ≤ p) (hp13 : p ≤ 13) (s : List Char)
    (hs : (line)[p]? = some s) (hbad : P s = none) :
    parseLine P line = .error .fatal := by
  obtain ⟨s0, h0⟩ : ∃ s, (line)[0]? = some s := by
    cases line with
    | nil => simp at hlen
    | cons a t => exact ⟨a, by simp⟩
  have hf : floatField P line p = .error .fatal := by simp [floatField, hs, hbad]
  simp only [parseLine, h0]
  interval_cases p <;>
    repeat first
      | exact bind_fatal_here _ _ hf
      | refine bind_fatal_later _ _ (floatField_cases P line _ (by omega)) (fun _ => ?_)


theorem readLoop_stops {F : Type} (P : List Char → Option F)
    (st : List (Except LoadError Record)) :
    ∀ acc : List (record F),
    (∀ e ∈ st, e = .error .fieldCount ∨ ∃ line, e = .ok line ∧ line.length = 14) →
    (∃ e ∈ st, e = .error .fieldCount ∨
      ∃ (line : Record) (p : Nat) (s : List Char),
        e = .ok line ∧ 1 ≤ p ∧ p ≤ 13 ∧ (line)[p]? = some s ∧ P s = none) →
    readLoop P st acc = .inl .fatal ∨ readLoop P st acc = .inl (.returned .fieldCount) := by
  induction st with
  | nil => intro _ _ h; obtain ⟨e, he, _⟩ := h; simp at he
  | cons e rest ih =>
    intro acc hall hex
    rcases hall e (List.mem_cons_self _ _) with he | ⟨line, he, hlen⟩
    · subst he; right; rfl
    · subst he
      rcases parseLine_fatal_or_ok P line hlen with hf | ⟨rec, hrec⟩
      · left; simp only [readLoop, hf]
      · simp only [readLoop, hrec]
        apply ih _ (fun e' he' => hall e' (List.mem_cons_of_mem _ he'))
        obtain ⟨e', hmem, hstop⟩ := hex
        rcases List.mem_cons.mp hmem with heq | hmem'
        · subst heq
          rcases hstop with hstop | ⟨line', p, s, hl, hp1, hp13, hs, hbad⟩
          · cases hstop
          · cases hl
            rw [parseLine_fatal P _ hlen p hp1 hp13 s hs hbad] at hrec
            cases hrec
        · exact ⟨e', hmem', hstop⟩

theorem reads_cons (text : List Char) (h : Record) (t : List Record)
    (hc : csvRecords text = h :: t) :
    reads text
      = .ok h :: t.map (fun r => if r.length = h.length then .ok r else .error .fieldCount) := by
  simp only [reads, hc]

theorem readData_of_stops {F : Type} (P : List Char → Option F) (data : List Char)
    (h : Record) (rest : List (Except LoadError Record))
    (hreads : reads (replaceCR data) = .ok h :: rest)
    (hloop : readLoop P rest [] = .inl .fatal ∨ readLoop P rest [] = .inl (.returned .fieldCount)) :
    readData P (some data) = .fatal ∨ readData P (some data) = .returned .fieldCount := by
  rcases hloop with hl | hl
  · left; simp only [readData, hreads, hl]
  · right; simp only [readData, hreads, hl]

/-- C4: when some data row of 14 fields has, at one of the positions 1 to 13,
a field that does not parse as a number, `readData` returns no slices: the
load ends in the fatal exit of `checkErr`, or in the field-count error of an
earlier row. -/
theorem C4_readData_fails_on_non_numeric_field {F : Type} (P : List Char → Option F)
    (data : List Char) (j : Nat) (row : Record) (p : Nat) (s : List Char)
    (hrow : (reads (replaceCR data))[j + 1]? = some (.ok row)) (hlen : row.length = 14)
    (hp1 : 1 ≤ p) (hp13 : p ≤ 13) (hs : (row)[p]? = some s) (hbad : P s = none) :
    readData P (some data) = .fatal ∨ readData P (some data) = .returned .fieldCount := by
  cases hc : csvRecords (replaceCR data) with
  | nil => simp [reads, hc] at hrow
  | cons h t =>
    have hreads := reads_cons _ h t hc
    rw [hreads, List.getElem?_cons_succ] at hrow
    have hmem := List.getElem?_mem hrow
    rw [List.getElem?_map] at hrow
    cases hr : t[j]? with
    | none => simp [hr] at hrow
    | some r =>
      simp only [hr, Option.map_some', Option.some.injEq] at hrow
      have h14 : h.length = 14 := by
        by_cases hrl : r.length = h.length
        · simp only [hrl, if_true, Except.ok.injEq] at hrow
          subst hrow; omega
        · simp [hrl] at hrow
      apply readData_of_stops P data h _ hreads
      apply readLoop_stops P _ []
      · intro e he
        obtain ⟨r', _, rfl⟩ := List.mem_map.mp he
        by_cases hrl : r'.length = h.length
        · right; exact ⟨r', by simp [hrl], by omega⟩
        · left; simp [hrl]
      · exact ⟨_, hmem, Or.inr ⟨row, p, s, rfl, hp1, hp13, hs, hbad⟩⟩

theorem sampleFile_reads :
    reads (replaceCR sampleFile) = .ok sampleHeader :: sampleRows.map .ok := by
  rfl

theorem sampleRows_numeric :
    ∀ row ∈ sampleRows, row.length = 14 ∧
      ∀ i : Nat, 1 ≤ i → i ≤ 13 → ∃ s v, (row)[i]? = some s ∧ parseDigits s = some v := by
  intro row hrow
  simp only [sampleRows, sampleRow1, sampleRow2, List.mem_cons, List.mem_singleton,
    List.not_mem_nil, or_false] at hrow
  rcases hrow with rfl | rfl
  · refine ⟨rfl, fun i h1 h13 => ?_⟩
    interval_cases i <;> exact ⟨_, _, rfl, rfl⟩
  · refine ⟨rfl, fun i h1 h13 => ?_⟩
    interval_cases i <;> exact ⟨_, _, rfl, rfl⟩

theorem C3_readData_columns_aligned_witness :
    reads (replaceCR sampleFile) = .ok sampleHeader :: sampleRows.map .ok ∧
      (∀ row ∈ sampleRows, row.length = 14 ∧
        ∀ i : Nat, 1 ≤ i → i ≤ 13 → ∃ s v, (row)[i]? = some s ∧ parseDigits s = some v) ∧
      ∃ crim rooms mv : List Nat,
        readData parseDigits (some sampleFile) = .ok crim rooms mv ∧
          crim.length = sampleRows.length ∧ rooms.length = sampleRows.length ∧
          mv.length = sampleRows.length ∧
          sampleRows.map (fun row => (row)[1]?.bind parseDigits) = crim.map some ∧
          sampleRows.map (fun row => (row)[6]?.bind parseDigits) = rooms.map some ∧
          sampleRows.map (fun row => (row)[13]?.bind parseDigits) = mv.map some :=
  ⟨sampleFile_reads, sampleRows_numeric,
    C3_readData_columns_aligned parseDigits sampleFile sampleHeader sampleRows sampleFile_reads
      sampleRows_numeric⟩

theorem C4_readData_fails_on_non_numeric_field_witness :
    (reads (replaceCR badNumberFile))[1 + 1]? = some (.ok badNumberRow) ∧
      badNumberRow.length = 14 ∧ 1 ≤ 6 ∧ 6 ≤ 13 ∧
      (badNumberRow)[6]? = some "seven".toList ∧
      parseDigits "seven".toList = none ∧
      (readData parseDigits (some badNumberFile) = .fatal ∨
        readData parseDigits (some badNumberFile) = .returned .fieldCount) :=
  ⟨rfl, rfl, by decide, by decide, rfl, rfl,
    C4_readData_fails_on_non_numeric_field parseDigits badNumberFile 1 badNumberRow 6
      "seven".toList rfl rfl (by decide) (by decide) rfl rfl⟩

/-- A row that is too short is indexed past its end when the header is as
short: `narrowFile` ends in a run-time panic. -/
theorem narrowFile_index_panic :
    readData parseDigits (some narrowFile) = .indexPanic := by
  decide

/-! ## Line breaks: lemmas -/

theorem fieldRel_refl (f : List Char) : FieldRel f f := Or.inl (Eq.refl f)

theorem fieldRel_append {f g : List Char} (h : FieldRel f g) (l : List Char) :
    FieldRel (f ++ l) (g ++ l) := by
  rcases h with h | ⟨h1, h2⟩
  · left; rw [h]
  · right; exact ⟨List.mem_append_left _ h1, List.mem_append_left _ h2⟩

theorem fieldRel_newline (f g : List Char) :
    FieldRel (f ++ ['\n']) (g ++ ['\n', '\n']) := by
  right
  exact ⟨by simp, by simp⟩

theorem recordRel_refl (r : Record) : RecordRel r r := by
  induction r with
  | nil => exact List.Forall₂.nil
  | cons f t ih => exact List.Forall₂.cons (fieldRel_refl f) ih

theorem recordRel_snoc {r s : Record} {f g : List Char} (hr : RecordRel r s)
    (hf : FieldRel f g) : RecordRel (r ++ [f]) (s ++ [g]) :=
  List.rel_append hr (List.Forall₂.cons hf List.Forall₂.nil)

theorem step_rel (a b : ReadState) (c : Char) (h : StateRel a b) :
    StateRel (step a c).1 (step b c).1 ∧
      List.Forall₂ RecordRel (step a c).2.toList (step b c).2.toList := by
  obtain ⟨m, f, r⟩ := a
  obtain ⟨m', g, s⟩ := b
  obtain ⟨hm, hf, hr⟩ := h
  simp only at hm hf hr
  subst hm
  cases m <;> simp only [step, endRecord] <;> split_ifs <;>
    simp [StateRel, fieldRel_refl, fieldRel_append, recordRel_snoc, recordRel_refl, hf, hr]

/-- A second line feed right after a line feed changes nothing but the field
of a quoted field under way. -/
theorem step_newline_again (a b : ReadState) (h : StateRel a b) :
    StateRel (step a '\n').1 (step (step b '\n').1 '\n').1 ∧
      (step (step b '\n').1 '\n').2 = none := by
  obtain ⟨m, f, r⟩ := a
  obtain ⟨m', g, s⟩ := b
  obtain ⟨hm, hf, hr⟩ := h
  simp only at hm hf hr
  subst hm
  cases m <;>
    simp [step, endRecord, StateRel, fieldRel_refl, recordRel_refl, hr, fieldRel_newline]

theorem scan_rel (text : List Char) :
    ∀ (bs : List Break) (a b : ReadState), StateRel a b →
      List.Forall₂ RecordRel (scan a (replaceCR text))
        (scan b (replaceCR (rewriteBreaks bs text))) := by
  induction text with
  | nil =>
    intro bs a b h
    obtain ⟨m, f, r⟩ := a
    obtain ⟨m', g, s⟩ := b
    obtain ⟨hm, hf, hr⟩ := h
    simp only at hm hf hr
    subst hm
    cases bs <;> cases m <;>
      simp [rewriteBreaks, replaceCR, scan, finish, recordRel_snoc, fieldRel_refl, hf, hr]
  | cons c t ih =>
    intro bs a b h
    have same : ∀ (bs' : List Break) (d : Char),
        List.Forall₂ RecordRel (scan a (d :: replaceCR t))
          (scan b (d :: replaceCR (rewriteBreaks bs' t))) := by
      intro bs' d
      obtain ⟨h1, h2⟩ := step_rel a b d h
      simp only [scan]
      exact List.rel_append h2 (ih bs' _ _ h1)
    cases bs with
    | nil => exact same [] _
    | cons br bs' =>
      by_cases hc : c = '\n'
      · subst hc
        cases br with
        | lf => simpa [rewriteBreaks, Break.chars, replaceCR] using same bs' '\n'
        | cr => simpa [rewriteBreaks, Break.chars, replaceCR] using same bs' '\n'
        | crlf =>
          obtain ⟨h1, h2⟩ := step_rel a b '\n' h
          obtain ⟨h3, h4⟩ := step_newline_again a b h
          have := List.rel_append h2 (ih bs' _ _ h3)
          simpa [rewriteBreaks, Break.chars, replaceCR, scan, h4] using this
      · simpa [rewriteBreaks, hc, replaceCR] using same (br :: bs') _


theorem reads_rel (t1 t2 : List Char)
    (h : List.Forall₂ RecordRel (csvRecords t1) (csvRecords t2)) :
    List.Forall₂ ReadRel (reads t1) (reads t2) := by
  unfold reads
  generalize csvRecords t1 = a at h ⊢
  generalize csvRecords t2 = b at h ⊢
  cases h with
  | nil => exact List.Forall₂.nil
  | @cons h1 h2 r1 r2 hh ht =>
    refine List.Forall₂.cons hh ?_
    rw [List.forall₂_map_left_iff, List.forall₂_map_right_iff]
    refine List.Forall₂.imp ?_ ht
    intro x y hxy
    have e1 : x.length = y.length := List.Forall₂.length_eq hxy
    have e2 : h1.length = h2.length := List.Forall₂.length_eq hh
    by_cases hx : x.length = h1.length
    · have hy : y.length = h2.length := by omega
      simpa [hx, hy, ReadRel] using hxy
    · have hy : ¬ y.length = h2.length := by omega
      simp [hx, hy, ReadRel]

theorem getElem?_rel {r s : Record} (h : RecordRel r s) :
    ∀ i : Nat, ((r)[i]? = none ∧ (s)[i]? = none) ∨
      ∃ f g, (r)[i]? = some f ∧ (s)[i]? = some g ∧ FieldRel f g := by
  induction h with
  | nil => intro i; left; simp
  | cons hf _ ih =>
    intro i
    cases i with
    | zero => right; exact ⟨_, _, by simp, by simp, hf⟩
    | succ k => simpa using ih k

theorem floatField_rel {F : Type} (P : List Char → Option F)
    (hP : ∀ s : List Char, '\n' ∈ s → P s = none) {r s : Record} (h : RecordRel r s)
    (i : Nat) : floatField P s i = floatField P r i := by
  rcases getElem?_rel h i with ⟨h1, h2⟩ | ⟨f, g, h1, h2, hfg | ⟨n1, n2⟩⟩
  · simp only [floatField, h1, h2]
  · subst hfg; simp only [floatField, h1, h2]
  · simp only [floatField, h1, h2, hP f n1, hP g n2]

theorem bind_lineRel {F α : Type} (x : Except Stop α) (f g : α → Except Stop (record F))
    (h : ∀ v, LineRel (f v) (g v)) : LineRel (x >>= f) (x >>= g) := by
  cases x with
  | error e => exact Eq.refl e
  | ok v => exact h v

theorem parseLine_rel {F : Type} (P : List Char → Option F)
    (hP : ∀ s : List Char, '\n' ∈ s → P s = none) {r s : Record} (h : RecordRel r s) :
    LineRel (parseLine P r) (parseLine P s) := by
  have hff := floatField_rel P hP h
  rcases getElem?_rel h 0 with ⟨h1, h2⟩ | ⟨f, g, h1, h2, _⟩
  · simp only [parseLine, h1, h2]
    exact Eq.refl _
  · simp only [parseLine, h1, h2, hff]
    refine bind_lineRel _ _ _ (fun _ => ?_)
    refine bind_lineRel _ _ _ (fun _ => ?_)
    refine bind_lineRel _ _ _ (fun _ => ?_)
    refine bind_lineRel _ _ _ (fun _ => ?_)
    refine bind_lineRel _ _ _ (fun _ => ?_)
    refine bind_lineRel _ _ _ (fun _ => ?_)
    refine bind_lineRel _ _ _ (fun _ => ?_)
    refine bind_lineRel _ _ _ (fun _ => ?_)
    refine bind_lineRel _ _ _ (fun _ => ?_)
    refine bind_lineRel _ _ _ (fun _ => ?_)
    refine bind_lineRel _ _ _ (fun _ => ?_)
    refine bind_lineRel _ _ _ (fun _ => ?_)
    refine bind_lineRel _ _ _ (fun _ => ?_)
    exact ⟨rfl, rfl, rfl⟩

theorem readLoop_rel {F : Type} (P : List Char → Option F)
    (hP : ∀ s : List Char, '\n' ∈ s → P s = none)
    {st1 st2 : List (Except LoadError Record)} (h : List.Forall₂ ReadRel st1 st2) :
    ∀ acc1 acc2 : List (record F), List.Forall₂ SameNumbers acc1 acc2 →
      LoopRel (readLoop P st1 acc1) (readLoop P st2 acc2) := by
  induction h with
  | nil => intro acc1 acc2 hacc; exact hacc
  | @cons e1 e2 l1 l2 he _ ih =>
    intro acc1 acc2 hacc
    cases e1 with
    | error x =>
      cases e2 with
      | error y =>
        have hxy : x = y := he
        subst hxy
        exact Eq.refl _
      | ok _ => exact he.elim
    | ok r =>
      cases e2 with
      | error _ => exact he.elim
      | ok s =>
        have hl := parseLine_rel P hP (show RecordRel r s from he)
        simp only [readLoop]
        cases h1 : parseLine P r with
        | error x =>
          cases h2 : parseLine P s with
          | error y =>
            rw [h1, h2] at hl
            have hxy : x = y := hl
            subst hxy
            cases x <;> exact Eq.refl _
          | ok _ => rw [h1, h2] at hl; exact hl.elim
        | ok a =>
          cases h2 : parseLine P s with
          | error _ => rw [h1, h2] at hl; exact hl.elim
          | ok b =>
            rw [h1, h2] at hl
            exact ih _ _ (List.rel_append hacc (List.Forall₂.cons hl List.Forall₂.nil))

theorem map_eq_of_sameNumbers {F : Type} {a b : List (record F)}
    (h : List.Forall₂ SameNumbers a b) :
    a.map (·.crim) = b.map (·.crim) ∧ a.map (·.rooms) = b.map (·.rooms) ∧
      a.map (·.mv) = b.map (·.mv) := by
  induction h with
  | nil => exact ⟨rfl, rfl, rfl⟩
  | cons hab _ ih =>
    obtain ⟨h1, h2, h3⟩ := hab
    obtain ⟨i1, i2, i3⟩ := ih
    simp [h1, h2, h3, i1, i2, i3]

/-- C8: `readData` does not see how the line breaks of a file are written.
For a number parser that rejects every field with a line feed in it, as
`strconv.ParseFloat` does, rewriting any of the line feeds of a file as
carriage return + line feed or as a lone carriage return leaves the outcome
of `readData` as it is: the same three slices, or the same failure. -/
theorem C8_readData_line_break_insensitive {F : Type} (P : List Char → Option F)
    (hP : ∀ s : List Char, '\n' ∈ s → P s = none) (bs : List Break) (text : List Char) :
    readData P (some (rewriteBreaks bs text)) = readData P (some text) := by
  have hscan : List.Forall₂ RecordRel (csvRecords (replaceCR text))
      (csvRecords (replaceCR (rewriteBreaks bs text))) :=
    scan_rel text bs _ _ ⟨rfl, fieldRel_refl _, recordRel_refl _⟩
  have hreads := reads_rel _ _ hscan
  simp only [readData]
  generalize reads (replaceCR text) = st1 at hreads ⊢
  generalize reads (replaceCR (rewriteBreaks bs text)) = st2 at hreads ⊢
  cases hreads with
  | nil => rfl
  | @cons e1 e2 l1 l2 he ht =>
    cases e1 with
    | error x =>
      cases e2 with
      | error y =>
        have hxy : x = y := he
        subst hxy
        rfl
      | ok _ => exact he.elim
    | ok r =>
      cases e2 with
      | error _ => exact he.elim
      | ok s =>
        have hl := readLoop_rel P hP ht [] [] List.Forall₂.nil
        simp only
        cases h1 : readLoop P l1 [] with
        | inl a =>
          cases h2 : readLoop P l2 [] with
          | inl b =>
            rw [h1, h2] at hl
            have hab : a = b := hl
            rw [hab]
          | inr _ => rw [h1, h2] at hl; exact hl.elim
        | inr a =>
          cases h2 : readLoop P l2 [] with
          | inl _ => rw [h1, h2] at hl; exact hl.elim
          | inr b =>
            rw [h1, h2] at hl
            obtain ⟨i1, i2, i3⟩ := map_eq_of_sameNumbers (show List.Forall₂ SameNumbers a b from hl)
            simp only [i1, i2, i3]

theorem parseDigits_rejects_newline (s : List Char) (h : '\n' ∈ s) : parseDigits s = none := by
  have hall : s.all Char.isDigit = false := by
    rw [List.all_eq_false]
    exact ⟨'\n', h, by decide⟩
  simp [parseDigits, hall]

theorem C8_readData_line_break_insensitive_witness :
    (∀ s : List Char, '\n' ∈ s → parseDigits s = none) ∧
      readData parseDigits (some (rewriteBreaks [.crlf, .cr, .lf] sampleFile))
        = readData parseDigits (some sampleFile) :=
  ⟨parseDigits_rejects_newline,
    C8_readData_line_break_insensitive parseDigits parseDigits_rejects_newline
      [.crlf, .cr, .lf] sampleFile⟩


end Serial
